import Mathlib

/-!
# A shallow embedding of the SSA-IR interpreter core (src/src/interpreter.c)

This file models, in Lean, the data model and the operations of the
interpreter's core: the expression evaluator `eval_value`, the φ-node
resolver `eval_phi`, one iteration of the control-flow driver `eval_body`
(as `eval_stmt`), the foreign-call bridge's argument marshaling
(`setInputParameter`), return decoding and symbol resolution, and the
backtrace-capture hook `jl_capture_interp_frame`.

Modelling conventions:
  * `jl_value_t*` handles become `JLValue`; a C `NULL` cell of the
    activation record's storage array becomes `none : Option JLValue`.
  * Raises (`jl_error`, `jl_undefined_var_error`, `jl_type_error`, the
    `jl_throw` of the undef-ref exception) become `Except.error` carrying a
    `Fault`; C `assert` conditions (active in a debug build; the spec calls
    them consistency faults) become `Fault.assertFail`, and the `exit(1)`
    calls become faults as well.
  * External collaborators (generic dispatch `jl_apply`, the global binding
    table, `jl_dlsym`, the dyncall library) are oracles passed in as
    function-valued parameters; the interpreter state they may change is the
    explicit `Ext` record threaded through evaluation.
  * Machine integers are `Nat`/`Int` with explicit `% 2 ^ w` where C
    truncates; the LP64 model is used (C `long` and `long long` are 64 bits,
    `size_t` is 64 bits), and byte contents are read little-endian.
-/

set_option maxHeartbeats 1000000

namespace InterpModel

/-- A runtime value handle (`jl_value_t*`).  Only the value shapes the
interpreter core itself inspects are distinguished; everything else is an
opaque host value (`extval`). -/
inductive JLValue where
  | nothing
  | bool (b : Bool)
  | int64 (n : Int)
  | ulong (n : Nat)
  | sym (s : String)
  | typevar (name : String)
  | ssavalue (id : Int)
  | linenum (line : Int)
  | extval (tag : Nat)
deriving DecidableEq

/-- The activation record's flat storage array `s->locals`:
slots `0..nslots-1` then SSA-value cells; `none` is a C `NULL` cell. -/
abbrev Locals := List (Option JLValue)

/-- An error carried by a raise out of the evaluator.  `errorMsg` is
`jl_error`/`jl_errorf` (the spec maps the two "access to invalid ..."
messages to its `InvalidReference` consistency fault), `undefinedVar` is
`jl_undefined_var_error`, `undefRef` is `jl_throw(jl_undefref_exception)`,
`typeErr` is `jl_type_error` (the spec's `TypeMismatch`), `assertFail` is a
C `assert` that fails (a consistency fault), and `unresolvedSymbol` is the
raise of `jl_dlsym` with `throw_err = 1` (the spec's `UnresolvedSymbol`). -/
inductive Fault where
  | errorMsg (msg : String)
  | undefinedVar (name : String)
  | undefRef
  | typeErr (ctx : String) (got : Option JLValue)
  | assertFail (msg : String)
  | unresolvedSymbol (name : String)
deriving DecidableEq

/-- An IR node handed to `eval_value`.  Value-like nodes (`quote`, plain
`value`) evaluate to themselves, reference nodes read the activation record
or the global table, and `Expr`-headed nodes follow the head dispatch of
`eval_value`.  The heads the claims do not touch (new/splatnew/foreigncall/
cfunction/opaque-closure/method) are modelled separately or not at all. -/
inductive Expr where
  | ssaRef (id : Int)
  | slotRef (n : Int)
  | quote (v : JLValue)
  | globalref (mod : String) (name : String)
  | symbol (s : String)
  | value (v : JLValue)
  | call (args : List Expr)
  | isdefined (sym : Expr)
  | throwUndefIfNot (var : String) (cond : Expr)
  | staticParameter (n : Int)
  | boundscheck
  | meta
  | coverageeffect
  | inbounds
  | loopinfo
  | aliasscope
  | popaliasscope
  | inlineHint
  | noinlineHint
  | gcPreserveBegin
  | gcPreserveEnd
  | exc

/-- The left-hand side of an assignment statement (`jl_exprarg(stmt, 0)`):
a slot, a global reference, or a bare symbol. -/
inductive LHS where
  | slotL (n : Int)
  | globalL (mod : String) (name : String)
  | symbolL (name : String)

/-- A statement of the code unit, as dispatched by `eval_body`.  Labels and
φ-edge entries are the 1-indexed statement indices the IR stores. -/
inductive Stmt where
  | gotoNode (label : Nat)
  | gotoIfNot (cond : Expr) (label : Nat)
  | returnNode (e : Expr)
  | upsilonNode (val : Option Expr)
  | assign (lhs : LHS) (rhs : Expr)
  | enter (catchLabel : Nat)
  | leave (n : Int)
  | popExc (e : Expr)
  | newvarNode (n : Int)
  | lineNode (line : Int)
  | phiNode (edges : List Int) (vals : List (Option Expr))
  | phicNode (vals : List Int)
  | exprStmt (e : Expr)

/-- The default used where C reads an array cell that is known in bounds. -/
def dfltStmt : Stmt := .exprStmt (.value .nothing)

/-- `jl_is_phinode`. -/
def isPhi : Stmt → Bool
  | .phiNode _ _ => true
  | _ => false

/-- The `interpreter_state` struct: the code unit's metadata
(`jl_source_nslots`, `jl_source_nssavalues`, `slotnames`), the storage
array, the bound static parameters (`none` models a NULL svec), the lexical
module, the method instance (when not toplevel), whether a code unit is
attached, the current statement index and the unwinding bookkeeping. -/
structure InterpState where
  nslots : Nat
  nssavalues : Nat
  slotnames : List String
  locals : Locals
  sparam_vals : Option (List JLValue)
  module : String
  mi : Option Nat
  srcPresent : Bool
  ip : Nat
  preevaluation : Bool
  continue_at : Nat

/-- The ambient state external services read and write: the module-scoped
global bindings, the exception-stack watermark (`jl_excstack_state` /
`jl_restore_excstack`) and `jl_lineno`. -/
structure Ext where
  globals : String → String → Option JLValue
  excstackDepth : Nat
  lineno : Int

/-- The external collaborators as oracles: generic dispatch (`jl_apply`),
the checked global-binding write (`jl_get_binding_wr` +
`jl_checked_assignment`), and `jl_current_exception`. -/
structure Oracle where
  apply : List (Option JLValue) → Ext → Except Fault (Option JLValue × Ext)
  checkedAssign : String → String → Option JLValue → Ext → Except Fault Ext
  currentException : Ext → JLValue

/-- `jl_is_typevar`. -/
def isTypevar : JLValue → Bool
  | .typevar _ => true
  | _ => false

/-- The reserved marker symbol `jl_getfield_undefref_sym`. -/
def getfieldUndefrefName : String := "##getfield_undefref##"

/-- A C `int32_t` edge entry converted to `size_t` (`size_t edge_from =
((int32_t*)jl_array_data(edges))[j]`): negative entries become values above
any statement index. -/
def sizeT (e : Int) : Nat := (e % (2 : Int) ^ 64).toNat

mutual

/-- The expression evaluator `eval_value(e, s)` (interpreter.c:243).
Returns the value (`none` models the C function returning `NULL`, which it
does only when reading an unset SSA cell) together with the ambient state
after any external calls. -/
def eval_value (O : Oracle) (st : InterpState) : Expr → Ext → Except Fault (Option JLValue × Ext)
  | .ssaRef id, ext =>
    let i : Int := id - 1
    if (st.nssavalues : Int) ≤ i ∨ i < 0 then
      .error (.errorMsg "access to invalid SSAValue")
    else
      .ok (st.locals.getD (st.nslots + i.toNat) none, ext)
  | .slotRef n, ext =>
    if (st.nslots : Int) < n ∨ n < 1 then
      .error (.errorMsg "access to invalid slot number")
    else
      match st.locals.getD ((n - 1).toNat) none with
      | none => .error (.undefinedVar (st.slotnames.getD ((n - 1).toNat) ""))
      | some v => .ok (some v, ext)
  | .quote v, ext => .ok (some v, ext)
  | .globalref m g, ext =>
    match ext.globals m g with
    | none => .error (.undefinedVar g)
    | some v => .ok (some v, ext)
  | .symbol g, ext =>
    match ext.globals st.module g with
    | none => .error (.undefinedVar g)
    | some v => .ok (some v, ext)
  | .value v, ext => .ok (some v, ext)
  | .call args, ext =>
    if args.length < 1 then .error (.assertFail "nargs >= 1")
    else
      match evalArgs O st args ext with
      | .error f => .error f
      | .ok (argv, ext2) => O.apply argv ext2
  | .isdefined sym, ext =>
    match sym with
    | .slotRef n =>
      if (st.nslots : Int) < n ∨ n < 1 then
        .error (.errorMsg "access to invalid slot number")
      else
        .ok (some (.bool (st.locals.getD ((n - 1).toNat) none).isSome), ext)
    | .globalref m g => .ok (some (.bool (ext.globals m g).isSome), ext)
    | .symbol g => .ok (some (.bool (ext.globals st.module g).isSome), ext)
    | .staticParameter n =>
      if n ≤ 0 then .error (.assertFail "n > 0")
      else
        match st.sparam_vals with
        | some sv =>
          if n.toNat ≤ sv.length then
            .ok (some (.bool (!isTypevar (sv.getD (n.toNat - 1) .nothing))), ext)
          else .error (.errorMsg "could not determine static parameter value")
        | none => .error (.errorMsg "could not determine static parameter value")
    | _ => .error (.assertFail "malformed isdefined expression")
  | .throwUndefIfNot var cond, ext =>
    match eval_value O st cond ext with
    | .error f => .error f
    | .ok (condv, ext2) =>
      match condv with
      | some (.bool b) =>
        if b then .ok (some .nothing, ext2)
        else if var = getfieldUndefrefName then .error .undefRef
        else .error (.undefinedVar var)
      | _ => .error (.assertFail "jl_is_bool(cond)")
  | .staticParameter n, ext =>
    if n ≤ 0 then .error (.assertFail "n > 0")
    else
      match st.sparam_vals with
      | some sv =>
        if n.toNat ≤ sv.length then
          match sv.getD (n.toNat - 1) .nothing with
          | .typevar nm =>
            if st.preevaluation then .ok (some (.typevar nm), ext)
            else .error (.undefinedVar nm)
          | sp => .ok (some sp, ext)
        else .error (.errorMsg "could not determine static parameter value")
      | none => .error (.errorMsg "could not determine static parameter value")
  | .boundscheck, ext => .ok (some (.bool true), ext)
  | .meta, ext => .ok (some .nothing, ext)
  | .coverageeffect, ext => .ok (some .nothing, ext)
  | .inbounds, ext => .ok (some .nothing, ext)
  | .loopinfo, ext => .ok (some .nothing, ext)
  | .aliasscope, ext => .ok (some .nothing, ext)
  | .popaliasscope, ext => .ok (some .nothing, ext)
  | .inlineHint, ext => .ok (some .nothing, ext)
  | .noinlineHint, ext => .ok (some .nothing, ext)
  | .gcPreserveBegin, ext => .ok (some .nothing, ext)
  | .gcPreserveEnd, ext => .ok (some .nothing, ext)
  | .exc, ext => .ok (some (O.currentException ext), ext)

/-- `do_call`'s argument loop: evaluate operands left to right, threading
the ambient state. -/
def evalArgs (O : Oracle) (st : InterpState) : List Expr → Ext → Except Fault (List (Option JLValue) × Ext)
  | [], ext => .ok ([], ext)
  | a :: rest, ext =>
    match eval_value O st a ext with
    | .error f => .error f
    | .ok (v, ext2) =>
      match evalArgs O st rest ext2 with
      | .error f => .error f
      | .ok (vs, ext3) => .ok (v :: vs, ext3)

end

/-! ## The φ-node resolver (`eval_phi`, interpreter.c:754) -/

/-- The inner edge scan of `eval_phi` (interpreter.c:780-793): over the
φ-node's edge list, with `edge` (C: `ssize_t edge = -1`, here an `Option`
index) and `closest` (initially the current block start `to_`).  An entry
equal to `from+1` is taken as the explicit match if none was taken yet; an
entry strictly between `closest` and `bound = to_ + i + 1` is a nearer
implicit fall-through edge and replaces the current choice. -/
def findEdge (edges : List Int) (j : Nat) (from_ bound : Nat) (edge : Option Nat) (closest : Nat) :
    Option Nat × Nat :=
  match edges with
  | [] => (edge, closest)
  | e :: rest =>
    let edge_from := sizeT e
    if edge_from = from_ + 1 then
      findEdge rest (j + 1) from_ bound (if edge = none then some j else edge) closest
    else if closest < edge_from ∧ edge_from < bound then
      findEdge rest (j + 1) from_ bound (some j) edge_from
    else
      findEdge rest (j + 1) from_ bound edge closest

/-- Write the values of `phis` into consecutive storage cells starting at
`base` (the C loops `dest[j] = phis[j]`). -/
def writeSeq (l : Locals) (base : Nat) : List (Option JLValue) → Locals
  | [] => l
  | v :: rest => writeSeq (l.set base v) (base + 1) rest

/-- The counting scan of `eval_phi` (interpreter.c:759-764): advance from
`ip` while the statement is a φ-node; the result is the index of the first
statement past the φ-run (what `eval_phi` returns). -/
def phiScan (stmts : List Stmt) (ns : Nat) (ip : Nat) : Nat :=
  if h : ip < ns ∧ isPhi (stmts.getD ip dfltStmt) = true then
    phiScan stmts ns (ip + 1)
  else ip
termination_by ns - ip
decreasing_by omega

/-- The main loop of `eval_phi` (interpreter.c:769-825), with the loop
variables `i`, `nphi`, `from`, `to_` and the buffer `phis` made explicit.
When the edge scan discovers a nearer implicit branch (`n_oldphi =
closest - to > 0`), the already-computed values for the sub-range are
committed (`dest[j] = phis[j]`), the buffer shifts down, and `from`/`to_`
re-base to the discovered block boundary, exactly as the C does; the
selected value is evaluated afterwards and appended.  On exit the remaining
values are committed at the (possibly shifted) destination. -/
def eval_phi_loop (O : Oracle) (stmts : List Stmt) (s : InterpState) (ext : Ext)
    (i nphi from_ to_ : Nat) (phis : List (Option JLValue)) :
    Except Fault (InterpState × Ext) :=
  if h : i < nphi then
    match stmts.getD (to_ + i) dfltStmt with
    | .phiNode edges vals =>
      let r := findEdge edges 0 from_ (to_ + i + 1) none to_
      let closest := r.2
      let n_oldphi := closest - to_
      let s2 := if 0 < n_oldphi then
          { s with locals := writeSeq s.locals (s.nslots + to_) (phis.take n_oldphi) }
        else s
      let phis2 := if 0 < n_oldphi then phis.drop n_oldphi else phis
      let from2 := if 0 < n_oldphi then closest - 1 else from_
      match r.1 with
      | some ej =>
        if hj : ej < vals.length then
          match vals.get ⟨ej, hj⟩ with
          | some vexpr =>
            match eval_value O s2 vexpr ext with
            | .error f => .error f
            | .ok (v, ext2) =>
              eval_phi_loop O stmts s2 ext2 (i - n_oldphi + 1) (nphi - n_oldphi) from2
                (to_ + n_oldphi) (phis2 ++ [v])
          | none =>
            eval_phi_loop O stmts s2 ext (i - n_oldphi + 1) (nphi - n_oldphi) from2
              (to_ + n_oldphi) (phis2 ++ [none])
        else .error (.assertFail "jl_array_ptr_ref(values, edge)")
      | none =>
        eval_phi_loop O stmts s2 ext (i - n_oldphi + 1) (nphi - n_oldphi) from2
          (to_ + n_oldphi) (phis2 ++ [none])
    | _ => .error (.assertFail "jl_is_phinode(e)")
  else
    .ok ({ s with locals := writeSeq s.locals (s.nslots + to_) phis }, ext)
termination_by nphi - i
decreasing_by all_goals omega

/-- `eval_phi(stmts, s, ns, to)` (interpreter.c:754-833): resolve the run of
consecutive φ-nodes starting at `to_`, reached from the previously executed
statement `s.ip`, writing the selected values into the SSA cells of the run
and returning the index of the first statement past it. -/
def eval_phi (O : Oracle) (stmts : List Stmt) (s : InterpState) (ext : Ext) (ns to_ : Nat) :
    Except Fault (Nat × InterpState × Ext) :=
  let ip := phiScan stmts ns to_
  let nphi := ip - to_
  if nphi = 0 then .ok (ip, s, ext)
  else
    match eval_phi_loop O stmts s ext 0 nphi s.ip to_ [] with
    | .error f => .error f
    | .ok (s2, ext2) => .ok (ip, s2, ext2)

/-! ## One iteration of the control-flow driver (`eval_body`, interpreter.c:835) -/

/-- The outcome of one iteration of `eval_body`'s loop.  `next_` continues
the loop at the instruction pointer `eval_phi` produced; `ret` is the
`ReturnNode` exit; `enterH`/`leaveH` surface the handler-scope
pseudo-instructions (C uses `jl_setjmp`/`jl_longjmp`; the nested driver
invocation and the non-local jump are outside this model, cf. the spec's
`ControlOutcome` note). -/
inductive StepResult where
  | next_ (ip : Nat) (st : InterpState) (ext : Ext)
  | ret (v : Option JLValue) (st : InterpState) (ext : Ext)
  | enterH (catchIp : Nat) (nextIp : Nat) (st : InterpState) (ext : Ext)
  | leaveH (n : Int) (resumeAt : Nat) (st : InterpState) (ext : Ext)

/-- After a statement falls through, the driver resolves any φ-run at
`next_ip` (`ip = eval_phi(stmts, s, ns, next_ip)`, interpreter.c:1024) and
continues there. -/
def stepFinish (O : Oracle) (stmts : List Stmt) (s : InterpState) (ext : Ext) (next_ip : Nat) :
    Except Fault StepResult :=
  match eval_phi O stmts s ext stmts.length next_ip with
  | .error f => .error f
  | .ok (ip2, s2, ext2) => .ok (.next_ ip2 s2 ext2)

/-- The `enter` pre-scan (interpreter.c:918-933): walk the catch block's
PhiC nodes and record, in the SSA cell of each associated Upsilon statement,
the SSA slot it must store to (`jl_box_ssavalue(catch_ip + 1)`); the PhiC
cell itself is cleared. -/
def enterPrescan (stmts : List Stmt) (nslots : Nat) (locals : Locals) (catch_ip ns : Nat) :
    Nat × Locals :=
  if h : catch_ip < ns then
    match stmts.getD catch_ip dfltStmt with
    | .phicNode vals =>
      let locals2 := vals.foldl
        (fun acc id => acc.set (nslots + (id - 1).toNat) (some (.ssavalue (catch_ip + 1))))
        locals
      enterPrescan stmts nslots (locals2.set (nslots + catch_ip) none) (catch_ip + 1) ns
    | _ => (catch_ip, locals)
  else (catch_ip, locals)
termination_by ns - catch_ip
decreasing_by omega

/-- One iteration of `eval_body`'s `while (1)` loop (interpreter.c:843-1024)
at the statement `stmts[s.ip]`, ending either in an outcome or a raise.
The toplevel-only statement forms (full method definitions, `toplevel`
wrappers, module meta directives) are outside the model; a toplevel line
node updates `jl_lineno`. -/
def eval_stmt (O : Oracle) (stmts : List Stmt) (toplevel : Bool) (s : InterpState) (ext : Ext) :
    Except Fault StepResult :=
  let ns := stmts.length
  let ip := s.ip
  if ns ≤ ip then
    .error (.errorMsg "`body` expression must terminate in `return`. Use `block` instead.")
  else
    match stmts.getD ip dfltStmt with
    | .phiNode _ _ => .error (.assertFail "malformed IR")
    | .phicNode _ => .error (.assertFail "malformed IR")
    | .gotoNode label => stepFinish O stmts s ext (label - 1)
    | .gotoIfNot c label =>
      match eval_value O s c ext with
      | .error f => .error f
      | .ok (cond, ext2) =>
        if cond = some (.bool false) then stepFinish O stmts s ext2 (label - 1)
        else if cond ≠ some (.bool true) then .error (.typeErr "if" cond)
        else stepFinish O stmts s ext2 (ip + 1)
    | .returnNode e =>
      match eval_value O s e ext with
      | .error f => .error f
      | .ok (v, ext2) => .ok (.ret v s ext2)
    | .upsilonNode val =>
      let r := match val with
        | some ve => eval_value O s ve ext
        | none => .ok (none, ext)
      match r with
      | .error f => .error f
      | .ok (v, ext2) =>
        match s.locals.getD (s.nslots + ip) none with
        | some (.ssavalue pid) =>
          stepFinish O stmts
            { s with locals := s.locals.set (s.nslots + (pid - 1).toNat) v } ext2 (ip + 1)
        | _ => .error (.assertFail "jl_is_ssavalue(phic)")
    | .assign lhs rhs =>
      match eval_value O s rhs ext with
      | .error f => .error f
      | .ok (v, ext2) =>
        match lhs with
        | .slotL n =>
          if (s.nslots : Int) < n ∨ n < 1 then
            .error (.assertFail "n <= jl_source_nslots(s->src) && n > 0")
          else
            stepFinish O stmts { s with locals := s.locals.set ((n - 1).toNat) v } ext2 (ip + 1)
        | .globalL m g =>
          match O.checkedAssign m g v ext2 with
          | .error f => .error f
          | .ok ext3 => stepFinish O stmts s ext3 (ip + 1)
        | .symbolL g =>
          match O.checkedAssign s.module g v ext2 with
          | .error f => .error f
          | .ok ext3 => stepFinish O stmts s ext3 (ip + 1)
    | .enter catchLabel =>
      let scan := enterPrescan stmts s.nslots s.locals (catchLabel - 1) ns
      let locals2 := scan.2.set (s.nslots + ip) (some (.ulong ext.excstackDepth))
      .ok (.enterH scan.1 (ip + 1) { s with locals := locals2 } ext)
    | .leave n =>
      if n ≤ 0 then .error (.assertFail "hand_n_leave > 0")
      else .ok (.leaveH n (ip + 1) { s with continue_at := ip + 1 } ext)
    | .popExc e =>
      match eval_value O s e ext with
      | .error f => .error f
      | .ok (v, ext2) =>
        match v with
        | some (.ulong d) => stepFinish O stmts s { ext2 with excstackDepth := d } (ip + 1)
        | _ => .error (.assertFail "jl_unbox_ulong(prev_state)")
    | .newvarNode n =>
      if (s.nslots : Int) < n ∨ n < 1 then
        .error (.assertFail "n <= jl_source_nslots(s->src) && n > 0")
      else
        stepFinish O stmts { s with locals := s.locals.set ((n - 1).toNat) none } ext (ip + 1)
    | .lineNode ln =>
      if toplevel then stepFinish O stmts s { ext with lineno := ln } (ip + 1)
      else
        stepFinish O stmts
          { s with locals := s.locals.set (s.nslots + ip) (some (.linenum ln)) } ext (ip + 1)
    | .exprStmt e =>
      match eval_value O s e ext with
      | .error f => .error f
      | .ok (v, ext2) =>
        stepFinish O stmts { s with locals := s.locals.set (s.nslots + ip) v } ext2 (ip + 1)

/-! ## The foreign-call bridge: argument marshaling and return decoding
(`setInputParameter`, interpreter.c:185-241, and the return dispatch of the
`foreigncall` branch of `eval_value`, interpreter.c:602-711)

The dyncall virtual machine is modelled by the typed argument slots the
`dcArg*` calls push and by a record of typed return channels the `dcCall*`
calls read.  C `long` and `long long` are both 64 bits here (LP64). -/

/-- One argument slot of the dyncall VM, tagged by the `dcArg*` function
that pushed it. -/
inductive DCArg where
  | floatA (bits : Nat)
  | doubleA (bits : Nat)
  | ptrA (v : Nat)
  | charA (v : Nat)
  | shortA (v : Nat)
  | intA (v : Nat)
  | longA (v : Nat)
  | longlongA (v : Nat)
deriving DecidableEq

/-- A runtime value as the marshaler reads it: `prim size bits` is a
fixed-size primitive (an integer/boolean of `size` bytes whose
little-endian content is `bits`), the others are the pointer-shaped and
float shapes `setInputParameter` distinguishes. -/
inductive CArgVal where
  | prim (size : Nat) (bits : Nat)
  | boxed (addr : Nat)
  | refV (addr : Nat)
  | ptrV (addr : Nat)
  | f32 (bits : Nat)
  | f64 (bits : Nat)
deriving DecidableEq

/-- The raw content of the value's datum, as the `jl_unbox_*` calls and the
direct `*(T*)e` reads see it (for `boxed`, the handle itself, since
`dcArgPointer(vm, e)` passes the handle). -/
def dataBits : CArgVal → Nat
  | .prim _ b => b
  | .boxed a => a
  | .refV a => a
  | .ptrV a => a
  | .f32 b => b
  | .f64 b => b

/-- A declared foreign-call parameter or return type, by the class
`setInputParameter` dispatches on. -/
inductive CDeclType where
  | float16T
  | float32T
  | float64T
  | anyT
  | refT
  | cptrT
  | primT (size : Nat)
  | otherT
deriving DecidableEq

/-- `setInputParameter(vm, _dt, e)` (interpreter.c:185-241): push one
argument into the call frame by the class of its declared type.  Notes kept
from the C: the Float16 case is `assert("Float16 is not supported!")`,
which as a non-null string literal never fires, so control falls through to
the primitive-size dispatch (size 2 → `dcArgShort`); the 16-byte primitive
case is `dcArgLongLong(vm, *(long long int*)(e))`, a 64-bit slot, so only
the low 8 bytes of the datum are passed; an unsupported primitive size is
`exit(1)`. -/
def setInputParameter (dt : CDeclType) (e : CArgVal) : Except Fault (List DCArg) :=
  match dt with
  | .float16T => .ok [.shortA (dataBits e % 2 ^ 16)]
  | .float32T => .ok [.floatA (dataBits e % 2 ^ 32)]
  | .float64T => .ok [.doubleA (dataBits e % 2 ^ 64)]
  | .anyT => .ok [.ptrA (dataBits e)]
  | .refT => .ok [.ptrA (dataBits e % 2 ^ 64)]
  | .cptrT => .ok [.ptrA (dataBits e % 2 ^ 64)]
  | .primT size =>
    match size with
    | 0 => .ok []
    | 1 => .ok [.charA (dataBits e % 2 ^ 8)]
    | 2 => .ok [.shortA (dataBits e % 2 ^ 16)]
    | 4 => .ok [.intA (dataBits e % 2 ^ 32)]
    | 8 => .ok [.longA (dataBits e % 2 ^ 64)]
    | 16 => .ok [.longlongA (dataBits e % 2 ^ 64)]
    | _ => .error (.errorMsg "Might be unsupported primitive input type")
  | .otherT => .ok [.ptrA (dataBits e)]

/-- The typed return channels a native call leaves behind; each `dcCall*`
primitive reads its own channel. -/
structure NativeRet where
  ptrR : Nat
  charR : Nat
  shortR : Nat
  intR : Nat
  longR : Nat
  longlongR : Nat
  floatR : Nat
  doubleR : Nat
deriving DecidableEq

/-- Modelled from the spec: the loopback (identity/no-op) native function of
the round-trip property.  Called on a single argument pushed with some
`dcArg*` class, it returns that value in the return channel of the same
class; every other channel keeps whatever the caller's `junk` record says
(their content after a real call is unspecified). -/
def loopback (args : List DCArg) (junk : NativeRet) : NativeRet :=
  match args with
  | [.charA v] => { junk with charR := v % 2 ^ 8 }
  | [.shortA v] => { junk with shortR := v % 2 ^ 16 }
  | [.intA v] => { junk with intR := v % 2 ^ 32 }
  | [.longA v] => { junk with longR := v % 2 ^ 64 }
  | [.longlongA v] => { junk with longlongR := v % 2 ^ 64 }
  | [.floatA v] => { junk with floatR := v % 2 ^ 32 }
  | [.doubleA v] => { junk with doubleR := v % 2 ^ 64 }
  | [.ptrA v] => { junk with ptrR := v % 2 ^ 64 }
  | _ => junk

/-- A declared return type, by the branch of the return dispatch
(interpreter.c:610-711) it selects.  The `Ref{...}` branch is not modelled
(no claim touches it). -/
inductive CRetType where
  | anyT
  | arrayT
  | int64T
  | uint64T
  | int32T
  | uint32T
  | nothingT
  | boolT
  | float64T
  | cptrT
  | primT (size : Nat)
  | otherT
deriving DecidableEq

/-- A decoded foreign-call result.  `boxFloat64FromLong` records exactly
what the C builds for a Float64 return: `jl_box_float64((long)dcCallLong(vm,
fptr))`, the integer-channel value converted to a double; `boxFloat64` is
the boxing of a double's own bits (used by the spec-side decoder).
`newBits size bits` is `jl_new_bits(rt, ptr)` over `size` bytes. -/
inductive FRet where
  | jlptr (addr : Nat)
  | boxInt64 (v : Int)
  | boxUInt64 (v : Nat)
  | boxInt32 (v : Int)
  | boxUInt32 (v : Nat)
  | nothingR
  | boxBool (b : Bool)
  | boxFloat64FromLong (v : Int)
  | boxFloat64 (bits : Nat)
  | newPtr (bits : Nat)
  | newBits (size : Nat) (bits : Nat)
  | instanceR
deriving DecidableEq

/-- A 64-bit channel value read as a signed C `long`/`int64_t`. -/
def toSigned64 (n : Nat) : Int :=
  if n % 2 ^ 64 < 2 ^ 63 then (n % 2 ^ 64 : Nat) else (n % 2 ^ 64 : Nat) - 2 ^ 64

/-- A 32-bit channel value read as a signed C `int`/`int32_t`. -/
def toSigned32 (n : Nat) : Int :=
  if n % 2 ^ 32 < 2 ^ 31 then (n % 2 ^ 32 : Nat) else (n % 2 ^ 32 : Nat) - 2 ^ 32

/-- The return-value decoding of the `foreigncall` branch
(interpreter.c:610-711), faithful to each `rt ==`/`jl_is_*` branch,
including: `Float64` returns are read with `dcCallLong` and the integer is
converted to a double (`jl_box_float64((long)dcCallLong(vm, fptr))`,
line 633); a 16-byte primitive return is read with `dcCallLongLong` into an
8-byte temporary from whose address `jl_new_bits` then reads 16 bytes, so
the high 8 bytes come from adjacent stack memory (`stackJunk`); unsupported
sizes and non-primitive types fall back to `dcCallPointer`. -/
def decodeReturn (rt : CRetType) (r : NativeRet) (stackJunk : Nat) : FRet :=
  match rt with
  | .anyT => .jlptr r.ptrR
  | .arrayT => .jlptr r.ptrR
  | .int64T => .boxInt64 (toSigned64 r.longR)
  | .uint64T => .boxUInt64 (r.longR % 2 ^ 64)
  | .int32T => .boxInt32 (toSigned32 r.intR)
  | .uint32T => .boxUInt32 (r.intR % 2 ^ 32)
  | .nothingT => .nothingR
  | .boolT => .boxBool (r.charR % 2 ^ 8 ≠ 0)
  | .float64T => .boxFloat64FromLong (toSigned64 r.longR)
  | .cptrT => .newPtr (r.ptrR % 2 ^ 64)
  | .primT size =>
    match size with
    | 0 => .instanceR
    | 1 => .newBits 1 (r.charR % 2 ^ 8)
    | 2 => .newBits 2 (r.shortR % 2 ^ 16)
    | 4 => .newBits 4 (r.intR % 2 ^ 32)
    | 8 => .newBits 8 (r.longR % 2 ^ 64)
    | 16 => .newBits 16 (r.longlongR % 2 ^ 64 + 2 ^ 64 * (stackJunk % 2 ^ 64))
    | _ => .jlptr r.ptrR
  | .otherT => .jlptr r.ptrR

/-- Modelled from the spec: the Float64 return decoding the spec describes
("decode the return value by the same type-class scheme", float returns
decoded with the floating-point class and boxed unchanged). -/
def specFloat64Decode (r : NativeRet) : FRet := .boxFloat64 (r.doubleR % 2 ^ 64)

/-- The round trip of the spec's testable property: marshal a fixed-size
primitive of `size` bytes holding `bits` as the single foreign-call
argument (`setInputParameter`), invoke the loopback function, and decode a
return of the same declared primitive type. -/
def ccallPrimRoundtrip (size : Nat) (bits : Nat) (junk : NativeRet) (stackJunk : Nat) :
    Except Fault FRet :=
  match setInputParameter (.primT size) (.prim size bits) with
  | .error f => .error f
  | .ok args => .ok (decodeReturn (.primT size) (loopback args junk) stackJunk)

/-! ## Foreign-call target resolution (interpreter.c:416-462 and 570-601) -/

/-- A library handle: the default `jl_libjulia_internal_handle`, the handle
`jl_get_library_` returns for a named library, or `jl_RTLD_DEFAULT_handle`
(the global fallback search). -/
inductive LibHandle where
  | internalH
  | libH (name : String)
  | defaultH
deriving DecidableEq

/-- The symbol-lookup service as an oracle: which address, if any, a handle
resolves a name to. -/
structure DLOracle where
  dlsym : LibHandle → String → Option Nat

/-- Modelled from the spec: the external `jl_dlsym(handle, name, &ptr,
throw_err)` (its code is not under src/) looks the symbol up and, when
`throw_err` is set, raises the unresolved-symbol error instead of
returning a null result. -/
def jl_dlsym (O : DLOracle) (h : LibHandle) (name : String) (throw_err : Bool) :
    Except Fault (Option Nat) :=
  match O.dlsym h name with
  | some p => .ok (some p)
  | none => if throw_err then .error (.unresolvedSymbol name) else .ok none

/-- The parsed foreign-call target (interpreter.c:416-462): a symbol or
string name, a literal address (`Ptr`/`UInt64`/`Int64` value), or a
`(name, library)` tuple. -/
inductive CallTarget where
  | symT (name : String)
  | addrT (a : Nat)
  | tupleT (name : String) (lib : String)

/-- The library handle used for the first two lookup strategies:
`jl_libjulia_internal_handle`, or the handle of the named library. -/
def libOf : Option String → LibHandle
  | none => .internalH
  | some s => .libH s

/-- The symbol-resolution chain of the `foreigncall` branch
(interpreter.c:570-601): build `ifname = "i" ++ fname`, look it up in the
library handle, then the literal name there, then the literal name in the
global `jl_RTLD_DEFAULT_handle` with `throw_err = 1`. -/
def resolve_fptr (O : DLOracle) (fname : String) (flib : Option String) : Except Fault Nat :=
  let ifname := "i" ++ fname
  let libhandle := libOf flib
  match jl_dlsym O libhandle ifname false with
  | .error f => .error f
  | .ok (some p) => .ok p
  | .ok none =>
    match jl_dlsym O libhandle fname false with
    | .error f => .error f
    | .ok (some p) => .ok p
    | .ok none =>
      match jl_dlsym O .defaultH fname true with
      | .error f => .error f
      | .ok (some p) => .ok p
      | .ok none => .error (.unresolvedSymbol fname)

/-- Resolution of the parsed call target: a literal address is used as is,
raising on zero (`jl_error("Try to call a null pointer")`,
interpreter.c:431); names go through the three-strategy chain. -/
def resolve_call_target (O : DLOracle) (tgt : CallTarget) : Except Fault Nat :=
  match tgt with
  | .addrT a => if a = 0 then .error (.errorMsg "Try to call a null pointer") else .ok a
  | .symT n => resolve_fptr O n none
  | .tupleT n l => resolve_fptr O n (some l)

/-! ## The backtrace-capture hook (`jl_capture_interp_frame`, interpreter.c:1201) -/

/-- A value slot of an emitted frame descriptor. -/
inductive BtVal where
  | miV (id : Nat)
  | srcV
  | nothingV
  | modV (name : String)
deriving DecidableEq

/-- One emitted backtrace entry: the non-pointer marker, the descriptor
word (`jl_bt_entry_descriptor(njlvalues, 0, JL_BT_INTERP_FRAME_TAG, s->ip)`)
or a value slot. -/
inductive BtEntry where
  | nonPtr
  | descr (njlvalues : Nat) (ip : Nat)
  | val (v : BtVal)
deriving DecidableEq

/-- `jl_capture_interp_frame(bt_entry, stateend, space_remaining)`
(interpreter.c:1201-1221): emit a compact frame descriptor for the
activation record, sized to the caller's budget; 0 entries and a 0 return
when the budget is below the required size (3 with a method context, 4
when the module must be recorded separately). -/
def jl_capture_interp_frame (s : InterpState) (space_remaining : Nat) : List BtEntry × Nat :=
  let need_module := s.mi.isNone
  let required_space := if need_module then 4 else 3
  if space_remaining < required_space then ([], 0)
  else
    let njlvalues := if need_module then 2 else 1
    let entry2 : BtEntry := .val (match s.mi with
      | some m => .miV m
      | none => if s.srcPresent then .srcV else .nothingV)
    let base := [BtEntry.nonPtr, BtEntry.descr njlvalues s.ip, entry2]
    (if need_module then base ++ [BtEntry.val (.modV s.module)] else base, required_space)

/-! ## The φ-resolution rule as the spec states it

These definitions follow the spec's words for §4.3 (and the amended form of
the claim about it), to be compared with `eval_phi` above: for each φ-node,
search the edge list for an explicit entry matching the current
predecessor, and track the nearest unclaimed implicit fall-through edge
strictly between the claimed block boundary and the φ-node's position;
when such an implicit edge exists it is preferred and claimed (the boundary
moves to it and the predecessor re-bases to the statement before it). -/

/-- Spec side: the first edge entry equal to `f + 1` (the explicit match). -/
def specExplicitAux : List Int → Nat → Nat → Option Nat
  | [], _, _ => none
  | e :: rest, j, f => if sizeT e = f + 1 then some j else specExplicitAux rest (j + 1) f

/-- Spec side: the nearest implicit fall-through edge strictly between the
claimed boundary `b` and the φ-position bound `bound`, as an
`(index, edge value)` pair; a later entry wins only when strictly nearer. -/
def specImplicitAux : List Int → Nat → Option (Nat × Nat) → Nat → Nat → Option (Nat × Nat)
  | [], _, best, _, _ => best
  | e :: rest, j, best, b, bound =>
    let lo := match best with
      | none => b
      | some q => q.2
    let ef := sizeT e
    if lo < ef ∧ ef < bound then specImplicitAux rest (j + 1) (some (j, ef)) b bound
    else specImplicitAux rest (j + 1) best b bound

/-- Spec side: the value a φ-node contributes once its edge is selected
(its values list entry, `none` when the edge list omits the arriving branch
or the entry is explicitly undefined); entries are literal values here. -/
def phiVal (vals : List (Option Expr)) : Option Nat → Option JLValue
  | none => none
  | some j =>
    match vals.getD j none with
    | some (.value w) => some w
    | _ => none

/-- Spec side: the selected values of a φ-run, one per φ-node.  State:
`f` the current predecessor statement index, `b` the claimed block
boundary, `p` the φ-node's position.  An implicit edge strictly between
`b` and the φ-position is preferred and claimed (`b` moves to it, `f`
re-bases to the statement before it); otherwise the explicit entry
matching `f + 1` is selected. -/
def specPhiVals : List (List Int × List (Option Expr)) → Nat → Nat → Nat → List (Option JLValue)
  | [], _, _, _ => []
  | (edges, vals) :: rest, f, b, p =>
    match specImplicitAux edges 0 none b (p + 1) with
    | some q => phiVal vals (some q.1) :: specPhiVals rest (q.2 - 1) q.2 (p + 1)
    | none => phiVal vals (specExplicitAux edges 0 f) :: specPhiVals rest f b (p + 1)

/-! ## Concrete instances used by witnesses and counterexamples -/

/-- An oracle whose external services are never consulted by the concrete
programs below. -/
def O0 : Oracle where
  apply := fun _ _ => .error (.errorMsg "no external dispatch")
  checkedAssign := fun _ _ _ ext => .ok ext
  currentException := fun _ => .nothing

/-- An empty ambient state. -/
def ext0 : Ext where
  globals := fun _ _ => none
  excstackDepth := 0
  lineno := 0

/-! ## Helper lemmas -/

theorem getD_set_self {l : Locals} {i : Nat} {v : Option JLValue} (h : i < l.length) :
    (l.set i v).getD i none = v := by
  unfold List.getD
  rw [List.get?_eq_getElem?, List.getElem?_set_eq_of_lt _ h]
  rfl

theorem getD_set_ne {l : Locals} {i j : Nat} {v : Option JLValue} (h : i ≠ j) :
    (l.set i v).getD j none = l.getD j none := by
  unfold List.getD
  rw [List.get?_eq_getElem?, List.get?_eq_getElem?, List.getElem?_set_ne h]

/-- A small activation-record state used by concrete witnesses: one slot
(set), two SSA cells (unset). -/
def sW : InterpState :=
  ⟨1, 2, ["x"], [some .nothing, none, none], none, "Main", none, true, 0, false, 0⟩

/-! ## C9 -/

/-- C9: the backtrace-capture hook returns 0 and emits nothing exactly when
the caller's budget is below the required frame-descriptor size — 3 entries
when a method context is present, 4 when only a code unit is present and
the module is recorded separately — and otherwise writes exactly that many
entries and returns that count. -/
theorem C9_capture_budget :
    ∀ (s : InterpState) (space : Nat),
      (jl_capture_interp_frame s space).2 =
        (if space < (if s.mi.isNone then 4 else 3) then 0
         else if s.mi.isNone then 4 else 3) ∧
      (jl_capture_interp_frame s space).1.length =
        (if space < (if s.mi.isNone then 4 else 3) then 0
         else if s.mi.isNone then 4 else 3) := by
  intro s space
  rcases hmi : s.mi with _ | m
  · by_cases hs : space < 4 <;> simp [jl_capture_interp_frame, hmi, hs]
  · by_cases hs : space < 3 <;> simp [jl_capture_interp_frame, hmi, hs]

/-! ## C7 -/

/-- C7 (amended): the metadata no-op heads `meta`, `coverageeffect`,
`inbounds`, `loopinfo`, `aliasscope`, `popaliasscope`, `inline` and
`noinline` evaluate to the no-value sentinel `jl_nothing` with no effect on
the activation record or the ambient state; the `boundscheck` head also has
no side effect but evaluates to boolean `true`, not to the sentinel. -/
theorem C7_metadata_eval : ∀ (O : Oracle) (s : InterpState) (ext : Ext),
    eval_value O s .meta ext = .ok (some .nothing, ext) ∧
    eval_value O s .coverageeffect ext = .ok (some .nothing, ext) ∧
    eval_value O s .inbounds ext = .ok (some .nothing, ext) ∧
    eval_value O s .loopinfo ext = .ok (some .nothing, ext) ∧
    eval_value O s .aliasscope ext = .ok (some .nothing, ext) ∧
    eval_value O s .popaliasscope ext = .ok (some .nothing, ext) ∧
    eval_value O s .inlineHint ext = .ok (some .nothing, ext) ∧
    eval_value O s .noinlineHint ext = .ok (some .nothing, ext) ∧
    eval_value O s .boundscheck ext = .ok (some (.bool true), ext) :=
  fun _ _ _ => ⟨rfl, rfl, rfl, rfl, rfl, rfl, rfl, rfl, rfl⟩

/-- C7, counterexample to the claim as stated: the bounds-check hint is a
`MetadataNoOp` kind, but evaluating it yields boolean `true`
(interpreter.c:387-389 `return jl_true`), not the no-value sentinel
`jl_nothing` the claim requires for every kind. -/
theorem C7_counterexample :
    eval_value O0 sW .boundscheck ext0 = .ok (some (.bool true), ext0) ∧
    some (JLValue.bool true) ≠ some JLValue.nothing :=
  ⟨rfl, by decide⟩

/-! ## C2 -/

/-- C2: the foreign-call round trip through the bridge against the loopback
native function.  For the 1-, 2-, 4- and 8-byte fixed-size primitive
classes every value is returned unchanged.  For the 16-byte class the
marshaler passes the datum through `dcArgLongLong`, a 64-bit slot
(interpreter.c:227), and the decoder rebuilds the 16-byte result from an
8-byte temporary (interpreter.c:693-696, 705), so only the low 64 bits
survive and the high 64 bits come from unspecified adjacent stack memory:
the concrete value `2^64` comes back as `0`. -/
theorem C2_roundtrip :
    (∀ b : Fin (2 ^ 8), ∀ junk : NativeRet, ∀ sj : Nat,
        ccallPrimRoundtrip 1 b junk sj = .ok (.newBits 1 b)) ∧
    (∀ b : Fin (2 ^ 16), ∀ junk : NativeRet, ∀ sj : Nat,
        ccallPrimRoundtrip 2 b junk sj = .ok (.newBits 2 b)) ∧
    (∀ b : Fin (2 ^ 32), ∀ junk : NativeRet, ∀ sj : Nat,
        ccallPrimRoundtrip 4 b junk sj = .ok (.newBits 4 b)) ∧
    (∀ b : Fin (2 ^ 64), ∀ junk : NativeRet, ∀ sj : Nat,
        ccallPrimRoundtrip 8 b junk sj = .ok (.newBits 8 b)) ∧
    (∀ b : Fin (2 ^ 128), ∀ junk : NativeRet, ∀ sj : Nat,
        ccallPrimRoundtrip 16 b junk sj =
          .ok (.newBits 16 (b % 2 ^ 64 + 2 ^ 64 * (sj % 2 ^ 64)))) ∧
    ccallPrimRoundtrip 16 (2 ^ 64) ⟨0, 0, 0, 0, 0, 0, 0, 0⟩ 0 = .ok (.newBits 16 0) ∧
    FRet.newBits 16 0 ≠ .newBits 16 (2 ^ 64) := by
  refine ⟨?_, ?_, ?_, ?_, ?_, rfl, by decide⟩ <;>
    · intro b junk sj
      have hb := Nat.mod_eq_of_lt b.isLt
      simp [ccallPrimRoundtrip, setInputParameter, loopback, decodeReturn, dataBits, hb]

/-! ## C5 -/

/-- C5: the return decode for a Float64 foreign call does not follow the
floating-point class: the C reads the integer return channel and converts,
`jl_box_float64((long)dcCallLong(vm, fptr))` (interpreter.c:632-634), so
the decoded value depends only on the integer channel and the callee's
double result (the `doubleR` channel, here holding bits `1` while the
integer channel holds `0`) never reaches it, unlike the spec-side decoder
`specFloat64Decode`. -/
theorem C5_float64_return_decode :
    (∀ (r : NativeRet) (sj : Nat),
        decodeReturn .float64T r sj = .boxFloat64FromLong (toSigned64 r.longR)) ∧
    decodeReturn .float64T ⟨0, 0, 0, 0, 0, 0, 0, 1⟩ 0 = .boxFloat64FromLong 0 ∧
    specFloat64Decode ⟨0, 0, 0, 0, 0, 0, 0, 1⟩ = .boxFloat64 1 ∧
    FRet.boxFloat64FromLong 0 ≠ .boxFloat64 1 :=
  ⟨fun _ _ => rfl, by decide, by decide, by decide⟩

/-- When the driver's next statement is not a φ-node (or is past the end),
`eval_phi` is the identity on the state and returns that index unchanged. -/
theorem eval_phi_nonphi (O : Oracle) (stmts : List Stmt) (s : InterpState) (ext : Ext)
    (ns to_ : Nat) (h : ns ≤ to_ ∨ isPhi (stmts.getD to_ dfltStmt) = false) :
    eval_phi O stmts s ext ns to_ = .ok (to_, s, ext) := by
  have hcond : ¬(to_ < ns ∧ isPhi (stmts.getD to_ dfltStmt) = true) := by
    rcases h with h | h
    · exact fun hc => absurd hc.1 (Nat.not_lt.mpr h)
    · intro hc
      rw [h] at hc
      exact Bool.false_ne_true hc.2
  have hscan : phiScan stmts ns to_ = to_ := by
    rw [phiScan, dif_neg hcond]
  simp [eval_phi, hscan]

/-! ## C3 -/

/-- C3: resolution of a foreign-call target.  A literal zero address raises
the null-function-pointer error and a nonzero one is used as is; a symbol
name (with or without a library name) is resolved by trying the "internal"
naming convention (`"i" ++ name`) in the library handle first, then the
literal name there, then the literal name in the global default handle, and
the unresolved-symbol error is raised only when all three lookups fail. -/
theorem C3_target_resolution :
    ∀ (O : DLOracle) (name lb : String) (flib : Option String) (p : Nat),
      resolve_call_target O (.addrT 0) = .error (.errorMsg "Try to call a null pointer") ∧
      resolve_call_target O (.addrT (p + 1)) = .ok (p + 1) ∧
      resolve_call_target O (.symT name) = resolve_fptr O name none ∧
      resolve_call_target O (.tupleT name lb) = resolve_fptr O name (some lb) ∧
      (O.dlsym (libOf flib) ("i" ++ name) = some p → resolve_fptr O name flib = .ok p) ∧
      (O.dlsym (libOf flib) ("i" ++ name) = none → O.dlsym (libOf flib) name = some p →
        resolve_fptr O name flib = .ok p) ∧
      (O.dlsym (libOf flib) ("i" ++ name) = none → O.dlsym (libOf flib) name = none →
        O.dlsym .defaultH name = some p → resolve_fptr O name flib = .ok p) ∧
      (O.dlsym (libOf flib) ("i" ++ name) = none → O.dlsym (libOf flib) name = none →
        O.dlsym .defaultH name = none →
        resolve_fptr O name flib = .error (.unresolvedSymbol name)) := by
  intro O name lb flib p
  refine ⟨rfl, by simp [resolve_call_target], rfl, rfl, ?_, ?_, ?_, ?_⟩
  · intro h1
    simp [resolve_fptr, jl_dlsym, h1]
  · intro h1 h2
    simp [resolve_fptr, jl_dlsym, h1, h2]
  · intro h1 h2 h3
    simp [resolve_fptr, jl_dlsym, h1, h2, h3]
  · intro h1 h2 h3
    simp [resolve_fptr, jl_dlsym, h1, h2, h3]

/-- A concrete symbol-lookup oracle in which only the global default handle
knows the name "foo". -/
def OD1 : DLOracle where
  dlsym := fun h n => if h = .defaultH ∧ n = "foo" then some 7 else none

/-- C3, witness: with `OD1` the internal and literal lookups fail, the
global fallback succeeds, and the chain returns its address; the zero
literal address raises. -/
theorem C3_resolution_witness :
    OD1.dlsym (libOf none) ("i" ++ "foo") = none ∧
    OD1.dlsym (libOf none) "foo" = none ∧
    OD1.dlsym .defaultH "foo" = some 7 ∧
    resolve_fptr OD1 "foo" none = .ok 7 ∧
    resolve_call_target OD1 (.addrT 0) = .error (.errorMsg "Try to call a null pointer") :=
  ⟨by decide, by decide, by decide,
    (C3_target_resolution OD1 "foo" "lib" none 7).2.2.2.2.2.2.1 (by decide) (by decide)
      (by decide),
    (C3_target_resolution OD1 "foo" "lib" none 7).1⟩

/-! ## C4 -/

/-- C4: for a `ConditionalGoto` (GotoIfNot) statement the driver evaluates
the condition; exactly boolean `false` moves the instruction pointer to the
branch target (the 1-indexed label, i.e. statement index `label - 1`),
exactly boolean `true` falls through to the next statement, and any other
result raises the `TypeMismatch` fault `jl_type_error("if", jl_bool_type,
cond)`.  (The fall-through hypotheses keep the subsequent φ-resolution pass
trivial, so the new instruction pointer is the branch target itself.) -/
theorem C4_conditional_goto :
    ∀ (O : Oracle) (stmts : List Stmt) (toplevel : Bool) (s : InterpState) (ext ext2 : Ext)
      (c : Expr) (label : Nat) (v : Option JLValue),
      s.ip < stmts.length →
      stmts.getD s.ip dfltStmt = .gotoIfNot c label →
      eval_value O s c ext = .ok (v, ext2) →
      (stmts.length ≤ label - 1 ∨ isPhi (stmts.getD (label - 1) dfltStmt) = false) →
      (stmts.length ≤ s.ip + 1 ∨ isPhi (stmts.getD (s.ip + 1) dfltStmt) = false) →
      ((v = some (.bool false) →
          eval_stmt O stmts toplevel s ext = .ok (.next_ (label - 1) s ext2)) ∧
       (v = some (.bool true) →
          eval_stmt O stmts toplevel s ext = .ok (.next_ (s.ip + 1) s ext2)) ∧
       (v ≠ some (.bool false) → v ≠ some (.bool true) →
          eval_stmt O stmts toplevel s ext = .error (.typeErr "if" v))) := by
  intro O stmts toplevel s ext ext2 c label v hip hstmt hev htgt hnext
  simp only [List.getD_eq_getElem?_getD] at hstmt
  refine ⟨?_, ?_, ?_⟩
  · intro hv
    subst hv
    simp [eval_stmt, Nat.not_le.mpr hip, hstmt, hev, stepFinish,
      eval_phi_nonphi O stmts s ext2 stmts.length (label - 1) htgt]
  · intro hv
    subst hv
    simp [eval_stmt, Nat.not_le.mpr hip, hstmt, hev, stepFinish,
      eval_phi_nonphi O stmts s ext2 stmts.length (s.ip + 1) hnext]
  · intro hv1 hv2
    simp [eval_stmt, Nat.not_le.mpr hip, hstmt, hev, hv1, hv2]

/-- The concrete two-way branch of the spec's scenario, reduced to its
`GotoIfNot`: statement 0 branches to statement 2 on false. -/
def stmtsC4 : List Stmt :=
  [.gotoIfNot (.value (.bool false)) 3, .returnNode (.value .nothing),
   .returnNode (.value (.int64 1))]

/-- C4, witness: with the condition evaluating to boolean `false`, the
instruction pointer moves to the branch label (statement index 2). -/
theorem C4_conditional_goto_witness :
    eval_value O0 sW (.value (.bool false)) ext0 = .ok (some (.bool false), ext0) ∧
    eval_stmt O0 stmtsC4 false sW ext0 = .ok (.next_ 2 sW ext0) :=
  ⟨rfl,
    (C4_conditional_goto O0 stmtsC4 false sW ext0 ext0 (.value (.bool false)) 3
      (some (.bool false)) (by decide) rfl rfl (Or.inr rfl) (Or.inr rfl)).1 rfl⟩

/-! ## C6 -/

/-- C6 (amended): `IsDefinedQuery` returns a boolean without raising for
in-range slot references, global references, bare symbols, and
static-parameter references whose value is determinable; an out-of-range
slot index raises the invalid-slot consistency fault, an undeterminable
static parameter raises, and an operand of any other kind is an assertion
(consistency) fault. -/
theorem C6_isdefined_eval :
    ∀ (O : Oracle) (s : InterpState) (ext : Ext),
      (∀ n : Int, 1 ≤ n → n ≤ (s.nslots : Int) →
        eval_value O s (.isdefined (.slotRef n)) ext =
          .ok (some (.bool (s.locals.getD ((n - 1).toNat) none).isSome), ext)) ∧
      (∀ m g, eval_value O s (.isdefined (.globalref m g)) ext =
          .ok (some (.bool (ext.globals m g).isSome), ext)) ∧
      (∀ g, eval_value O s (.isdefined (.symbol g)) ext =
          .ok (some (.bool (ext.globals s.module g).isSome), ext)) ∧
      (∀ (n : Int) (sv : List JLValue), 0 < n → s.sparam_vals = some sv →
        n.toNat ≤ sv.length →
        eval_value O s (.isdefined (.staticParameter n)) ext =
          .ok (some (.bool (!isTypevar (sv.getD (n.toNat - 1) .nothing))), ext)) ∧
      (∀ n : Int, (s.nslots : Int) < n ∨ n < 1 →
        eval_value O s (.isdefined (.slotRef n)) ext =
          .error (.errorMsg "access to invalid slot number")) ∧
      (∀ n : Int, 0 < n → s.sparam_vals = none →
        eval_value O s (.isdefined (.staticParameter n)) ext =
          .error (.errorMsg "could not determine static parameter value")) ∧
      (∀ v : JLValue, eval_value O s (.isdefined (.value v)) ext =
          .error (.assertFail "malformed isdefined expression")) := by
  intro O s ext
  refine ⟨?_, fun m g => rfl, fun g => rfl, ?_, ?_, ?_, fun v => rfl⟩
  · intro n h1 h2
    have hr : ¬((s.nslots : Int) < n ∨ n < 1) := by omega
    simp [eval_value, hr]
  · intro n sv h1 hsv h2
    have hn : ¬ n ≤ 0 := by omega
    simp [eval_value, hn, hsv, h2]
  · intro n h
    simp [eval_value, h]
  · intro n h1 h2
    have hn : ¬ n ≤ 0 := by omega
    simp [eval_value, hn, h2]

/-- C6, counterexample to the claim as stated: the operand is a slot
reference, yet evaluation raises (interpreter.c:301-302 `jl_error("access
to invalid slot number")` for the out-of-range slot index 2 of a 1-slot
code unit) instead of returning a boolean. -/
theorem C6_counterexample :
    eval_value O0 sW (.isdefined (.slotRef 2)) ext0 =
      .error (.errorMsg "access to invalid slot number") := rfl

/-- C6, witness: an in-range slot operand yields a boolean. -/
theorem C6_isdefined_witness :
    (1 : Int) ≤ 1 ∧ (1 : Int) ≤ (sW.nslots : Int) ∧
    eval_value O0 sW (.isdefined (.slotRef 1)) ext0 = .ok (some (.bool true), ext0) :=
  ⟨by decide, by decide, by
    have h := (C6_isdefined_eval O0 sW ext0).1 1 (by decide) (by decide)
    simpa using h⟩

/-! ## C8 -/

/-- C8: after `NewVariableScope` on slot `k` the driver clears cell `k - 1`
and reading slot `k` before any assignment raises `UndefinedVariable`; more
generally reading any unset slot raises `UndefinedVariable`, while an
out-of-range slot index or an out-of-range SSA index raises the
corresponding `jl_error` consistency fault (the spec's `InvalidReference`)
rather than being undefined behavior. -/
theorem C8_slot_undef :
    ∀ (O : Oracle) (stmts : List Stmt) (toplevel : Bool) (s : InterpState) (ext : Ext),
      (∀ k : Int,
        stmts.getD s.ip dfltStmt = .newvarNode k → s.ip < stmts.length →
        1 ≤ k → k ≤ (s.nslots : Int) → s.nslots ≤ s.locals.length →
        (stmts.length ≤ s.ip + 1 ∨ isPhi (stmts.getD (s.ip + 1) dfltStmt) = false) →
        eval_stmt O stmts toplevel s ext =
          .ok (.next_ (s.ip + 1) { s with locals := s.locals.set ((k - 1).toNat) none } ext) ∧
        eval_value O { s with locals := s.locals.set ((k - 1).toNat) none } (.slotRef k) ext =
          .error (.undefinedVar (s.slotnames.getD ((k - 1).toNat) ""))) ∧
      (∀ n : Int, 1 ≤ n → n ≤ (s.nslots : Int) →
        s.locals.getD ((n - 1).toNat) none = none →
        eval_value O s (.slotRef n) ext =
          .error (.undefinedVar (s.slotnames.getD ((n - 1).toNat) ""))) ∧
      (∀ n : Int, (s.nslots : Int) < n ∨ n < 1 →
        eval_value O s (.slotRef n) ext = .error (.errorMsg "access to invalid slot number")) ∧
      (∀ id : Int, (s.nssavalues : Int) ≤ id - 1 ∨ id - 1 < 0 →
        eval_value O s (.ssaRef id) ext = .error (.errorMsg "access to invalid SSAValue")) := by
  intro O stmts toplevel s ext
  refine ⟨?_, ?_, ?_, ?_⟩
  · intro k hstmt hip h1 h2 hlen hnext
    have hr : ¬((s.nslots : Int) < k ∨ k < 1) := by omega
    have hcell : (s.locals.set ((k - 1).toNat) none).getD ((k - 1).toNat) none = none :=
      getD_set_self (by omega)
    have hnn : (k - 1).toNat = k.toNat - 1 := by omega
    simp only [List.getD_eq_getElem?_getD, hnn] at hstmt hcell
    constructor
    · simp [eval_stmt, Nat.not_le.mpr hip, hstmt, hr, stepFinish,
        eval_phi_nonphi O stmts _ ext stmts.length (s.ip + 1) hnext]
    · simp [eval_value, hr, hcell]
  · intro n h1 h2 hcell
    have hr : ¬((s.nslots : Int) < n ∨ n < 1) := by omega
    have hnn : (n - 1).toNat = n.toNat - 1 := by omega
    simp only [List.getD_eq_getElem?_getD, hnn] at hcell
    simp [eval_value, hr, hcell]
  · intro n h
    simp [eval_value, h]
  · intro id h
    simp [eval_value, h]
    omega

/-- C8, witness: in a one-slot frame with the slot set, `NewVariableScope`
on slot 1 clears it and the subsequent read raises `UndefinedVariable`. -/
theorem C8_slot_undef_witness :
    eval_stmt O0 [Stmt.newvarNode 1, .returnNode (.value .nothing)] false sW ext0 =
      .ok (.next_ 1 { sW with locals := sW.locals.set 0 none } ext0) ∧
    eval_value O0 { sW with locals := sW.locals.set 0 none } (.slotRef 1) ext0 =
      .error (.undefinedVar "x") := by
  have h := (C8_slot_undef O0 [Stmt.newvarNode 1, .returnNode (.value .nothing)] false sW
    ext0).1 1 rfl (by decide) (by decide) (by decide) (by decide) (Or.inr rfl)
  simpa using h

/-! ## C10 -/

/-- C10: executing an `Assignment` whose left-hand side is slot `n` stores
the evaluated right-hand side into storage cell `n - 1` and into nothing
else: every other cell of the activation record's storage array (the other
slots and every SSA-value cell) is unchanged. -/
theorem C10_assignment_frame :
    ∀ (O : Oracle) (stmts : List Stmt) (toplevel : Bool) (s : InterpState) (ext ext2 : Ext)
      (n : Int) (rhs : Expr) (v : Option JLValue),
      s.ip < stmts.length →
      stmts.getD s.ip dfltStmt = .assign (.slotL n) rhs →
      eval_value O s rhs ext = .ok (v, ext2) →
      1 ≤ n → n ≤ (s.nslots : Int) →
      (stmts.length ≤ s.ip + 1 ∨ isPhi (stmts.getD (s.ip + 1) dfltStmt) = false) →
      eval_stmt O stmts toplevel s ext =
        .ok (.next_ (s.ip + 1) { s with locals := s.locals.set ((n - 1).toNat) v } ext2) ∧
      ∀ m : Nat, m ≠ (n - 1).toNat →
        (s.locals.set ((n - 1).toNat) v).getD m none = s.locals.getD m none := by
  intro O stmts toplevel s ext ext2 n rhs v hip hstmt hev h1 h2 hnext
  simp only [List.getD_eq_getElem?_getD] at hstmt
  have hr : ¬((s.nslots : Int) < n ∨ n < 1) := by omega
  constructor
  · simp [eval_stmt, Nat.not_le.mpr hip, hstmt, hev, hr, stepFinish,
      eval_phi_nonphi O stmts _ ext2 stmts.length (s.ip + 1) hnext]
  · intro m hm
    exact getD_set_ne (Ne.symm hm)

/-- C10, witness: assigning `5` to slot 1 writes cell 0 and every other
cell (here the two SSA cells) reads back unchanged. -/
theorem C10_assignment_frame_witness :
    eval_stmt O0 [Stmt.assign (.slotL 1) (.value (.int64 5)), .returnNode (.value .nothing)]
        false sW ext0 =
      .ok (.next_ 1 { sW with locals := sW.locals.set 0 (some (.int64 5)) } ext0) ∧
    (sW.locals.set 0 (some (.int64 5))).getD 1 none = sW.locals.getD 1 none ∧
    (sW.locals.set 0 (some (.int64 5))).getD 2 none = sW.locals.getD 2 none := by
  have h := C10_assignment_frame O0
    [Stmt.assign (.slotL 1) (.value (.int64 5)), .returnNode (.value .nothing)] false sW ext0
    ext0 1 (.value (.int64 5)) (some (.int64 5)) (by decide) rfl rfl (by decide) (by decide)
    (Or.inr rfl)
  exact ⟨by simpa using h.1, h.2 1 (by decide), h.2 2 (by decide)⟩

/-! ## C1: lemmas relating `eval_phi` to the spec-side selection rule -/

theorem writeSeq_append (l : Locals) (base : Nat) (xs ys : List (Option JLValue)) :
    writeSeq l base (xs ++ ys) = writeSeq (writeSeq l base xs) (base + xs.length) ys := by
  induction xs generalizing l base with
  | nil => simp [writeSeq]
  | cons a t ih =>
    show writeSeq (l.set base a) (base + 1) (t ++ ys) = _
    rw [ih]
    congr 1
    simp [writeSeq]
    omega

/-- The counting scan stops exactly at the end of the φ-run. -/
theorem phiScan_run (stmts : List Stmt) (n : Nat) :
    ∀ to_ : Nat, (∀ m, m < n → isPhi (stmts.getD (to_ + m) dfltStmt) = true) →
      to_ + n ≤ stmts.length →
      (to_ + n = stmts.length ∨ isPhi (stmts.getD (to_ + n) dfltStmt) = false) →
      phiScan stmts stmts.length to_ = to_ + n := by
  induction n with
  | zero =>
    intro to_ hphi hle hend
    have hcond : ¬(to_ < stmts.length ∧ isPhi (stmts.getD to_ dfltStmt) = true) := by
      rcases hend with h | h
      · intro hc
        omega
      · intro hc
        rw [Nat.add_zero] at h
        rw [h] at hc
        exact Bool.false_ne_true hc.2
    rw [phiScan, dif_neg hcond]
    omega
  | succ n ih =>
    intro to_ hphi hle hend
    have hcond : to_ < stmts.length ∧ isPhi (stmts.getD to_ dfltStmt) = true :=
      ⟨by omega, by simpa using hphi 0 (by omega)⟩
    rw [phiScan, dif_pos hcond]
    have hrec := ih (to_ + 1)
      (fun m hm => by
        have e : to_ + 1 + m = to_ + (m + 1) := by omega
        rw [e]
        exact hphi (m + 1) (by omega))
      (by omega)
      (by
        have e : to_ + 1 + n = to_ + (n + 1) := by omega
        rw [e]
        exact hend)
    rw [hrec]
    omega

/-- `specImplicitAux` seeded with a choice never loses it. -/
theorem specImplicitAux_some (edges : List Int) :
    ∀ (j : Nat) (q : Nat × Nat) (b bound : Nat),
      ∃ q2, specImplicitAux edges j (some q) b bound = some q2 := by
  induction edges with
  | nil =>
    intro j q b bound
    exact ⟨q, rfl⟩
  | cons e rest ih =>
    intro j q b bound
    simp only [specImplicitAux]
    split
    · exact ih _ _ _ _
    · exact ih _ _ _ _

/-- Bounds carried by a `specImplicitAux` result: the selected edge value
lies strictly inside the window and its index inside the edge list. -/
theorem specImplicitAux_bounds (edges : List Int) :
    ∀ (j : Nat) (best : Option (Nat × Nat)) (b bound : Nat) (q : Nat × Nat),
      (∀ p : Nat × Nat, best = some p → b < p.2 ∧ p.2 < bound ∧ p.1 < j) →
      specImplicitAux edges j best b bound = some q →
      b < q.2 ∧ q.2 < bound ∧ q.1 < j + edges.length := by
  induction edges with
  | nil =>
    intro j best b bound q hbest h
    have := hbest q h
    omega
  | cons e rest ih =>
    intro j best b bound q hbest h
    simp only [specImplicitAux] at h
    rcases best with _ | p0
    · by_cases hc : b < sizeT e ∧ sizeT e < bound
      · rw [if_pos hc] at h
        have := ih (j + 1) (some (j, sizeT e)) b bound q
          (by
            intro p hp
            cases hp
            exact ⟨hc.1, hc.2, by omega⟩) h
        simp only [List.length_cons]
        omega
      · rw [if_neg hc] at h
        have := ih (j + 1) none b bound q (by intro p hp; cases hp) h
        simp only [List.length_cons]
        omega
    · have hp0 := hbest p0 rfl
      by_cases hc : p0.2 < sizeT e ∧ sizeT e < bound
      · rw [if_pos hc] at h
        have := ih (j + 1) (some (j, sizeT e)) b bound q
          (by
            intro p hp
            cases hp
            exact ⟨by omega, hc.2, by omega⟩) h
        simp only [List.length_cons]
        omega
      · rw [if_neg hc] at h
        have := ih (j + 1) (some p0) b bound q
          (by
            intro p hp
            cases hp
            exact ⟨hp0.1, hp0.2.1, by omega⟩) h
        simp only [List.length_cons]
        omega

/-- A `specExplicitAux` result indexes the edge list. -/
theorem specExplicitAux_lt (edges : List Int) :
    ∀ (j f x : Nat), specExplicitAux edges j f = some x → j ≤ x ∧ x < j + edges.length := by
  induction edges with
  | nil =>
    intro j f x h
    simp [specExplicitAux] at h
  | cons e rest ih =>
    intro j f x h
    simp only [specExplicitAux] at h
    by_cases hc : sizeT e = f + 1
    · rw [if_pos hc] at h
      cases h
      simp only [List.length_cons]
      omega
    · rw [if_neg hc] at h
      have := ih (j + 1) f x h
      simp only [List.length_cons]
      omega

/-- The inner edge scan of `eval_phi` computes exactly the spec-side rule:
the nearest unclaimed implicit edge when one exists in the window, else the
first explicit match (kept in the accumulator `E0`), provided the explicit
predecessor `f + 1` does not itself lie in the window. -/
theorem findEdge_spec (edges : List Int) :
    ∀ (j f b bound : Nat) (best : Option (Nat × Nat)) (E0 : Option Nat),
      ¬(b < f + 1 ∧ f + 1 < bound) →
      (∀ q : Nat × Nat, best = some q → b < q.2 ∧ q.2 < bound) →
      findEdge edges j f bound
          (match best with | some q => some q.1 | none => E0)
          (match best with | some q => q.2 | none => b) =
        (match specImplicitAux edges j best b bound with
         | some q => (some q.1, q.2)
         | none =>
           ((match E0 with
             | some x => some x
             | none => specExplicitAux edges j f), b)) := by
  induction edges with
  | nil =>
    intro j f b bound best E0 hf hbest
    rcases best with _ | q
    · rcases E0 with _ | x <;> simp [findEdge, specImplicitAux, specExplicitAux]
    · simp [findEdge, specImplicitAux]
  | cons e rest ih =>
    intro j f b bound best E0 hf hbest
    by_cases he : sizeT e = f + 1
    · -- the explicit branch of the C scan
      rcases best with _ | q
      · have hskip : ¬(b < sizeT e ∧ sizeT e < bound) := by
          rw [he]
          exact hf
        rcases E0 with _ | x
        · have hrec := ih (j + 1) f b bound none (some j) hf hbest
          simp only at hrec
          simp only [findEdge, specImplicitAux, specExplicitAux, if_pos he, if_neg hskip]
          simpa using hrec
        · have hrec := ih (j + 1) f b bound none (some x) hf hbest
          simp only at hrec
          simp only [findEdge, specImplicitAux, specExplicitAux, if_pos he, if_neg hskip]
          simpa using hrec
      · have hq := hbest q rfl
        have hskip : ¬(q.2 < sizeT e ∧ sizeT e < bound) := by
          rw [he]
          intro hc
          exact hf ⟨by omega, hc.2⟩
        have hrec := ih (j + 1) f b bound (some q) E0 hf hbest
        simp only at hrec
        simp only [findEdge, specImplicitAux, specExplicitAux, if_pos he, if_neg hskip]
        obtain ⟨q2, hq2⟩ := specImplicitAux_some rest (j + 1) q b bound
        rw [hq2] at hrec ⊢
        simpa using hrec
    · -- not an explicit match
      rcases best with _ | q
      · by_cases hwin : b < sizeT e ∧ sizeT e < bound
        · have hrec := ih (j + 1) f b bound (some (j, sizeT e)) E0 hf
            (by
              intro p hp
              cases hp
              exact ⟨hwin.1, hwin.2⟩)
          simp only at hrec
          simp only [findEdge, specImplicitAux, specExplicitAux, if_neg he, if_pos hwin]
          obtain ⟨q2, hq2⟩ := specImplicitAux_some rest (j + 1) (j, sizeT e) b bound
          rw [hq2] at hrec ⊢
          simpa using hrec
        · have hrec := ih (j + 1) f b bound none E0 hf hbest
          simp only at hrec
          simp only [findEdge, specImplicitAux, specExplicitAux, if_neg he, if_neg hwin]
          rcases E0 with _ | x
          · simpa using hrec
          · simpa using hrec
      · have hq := hbest q rfl
        by_cases hwin : q.2 < sizeT e ∧ sizeT e < bound
        · have hrec := ih (j + 1) f b bound (some (j, sizeT e)) E0 hf
            (by
              intro p hp
              cases hp
              exact ⟨by omega, hwin.2⟩)
          simp only at hrec
          simp only [findEdge, specImplicitAux, specExplicitAux, if_neg he, if_pos hwin]
          obtain ⟨q2, hq2⟩ := specImplicitAux_some rest (j + 1) (j, sizeT e) b bound
          rw [hq2] at hrec ⊢
          simpa using hrec
        · have hrec := ih (j + 1) f b bound (some q) E0 hf hbest
          simp only at hrec
          simp only [findEdge, specImplicitAux, specExplicitAux, if_neg he, if_neg hwin]
          obtain ⟨q2, hq2⟩ := specImplicitAux_some rest (j + 1) q b bound
          rw [hq2] at hrec ⊢
          simpa using hrec

/-- `findEdge` as called by `eval_phi` (empty accumulators). -/
theorem findEdge_top (edges : List Int) (f b bound : Nat) (hf : ¬(b < f + 1 ∧ f + 1 < bound)) :
    findEdge edges 0 f bound none b =
      (match specImplicitAux edges 0 none b bound with
       | some q => (some q.1, q.2)
       | none => (specExplicitAux edges 0 f, b)) := by
  have := findEdge_spec edges 0 f b bound none none hf (by intro q hq; cases hq)
  simpa using this

/-- The main loop of `eval_phi` computes, φ by φ, exactly the spec-side
selected values `specPhiVals`, committing them at each φ's own SSA
position: at every point the current `to` is the claimed boundary, the
current `from` the (re-based) predecessor, and the buffer holds the values
selected for the positions since the boundary.  Stated over runs whose
values lists hold literal values, for which evaluation is the identity. -/
theorem eval_phi_loop_spec (O : Oracle) (stmts : List Stmt) :
    ∀ (rem : List (List Int × List (Option Expr))) (p b f : Nat) (s : InterpState) (ext : Ext)
      (acc : List (Option JLValue)),
      b ≤ p →
      (∀ m (hm : m < rem.length),
        stmts.getD (p + m) dfltStmt = .phiNode (rem.get ⟨m, hm⟩).1 (rem.get ⟨m, hm⟩).2) →
      (∀ ev ∈ rem, ev.2.length = ev.1.length ∧
        ∀ oe ∈ ev.2, ∀ x, oe = some x → ∃ w, x = .value w) →
      (f + 1 ≤ b ∨ p + rem.length ≤ f) →
      acc.length = p - b →
      eval_phi_loop O stmts s ext (p - b) (p - b + rem.length) f b acc =
        .ok ({ s with locals := writeSeq s.locals (s.nslots + b) (acc ++ specPhiVals rem f b p) },
          ext) := by
  intro rem
  induction rem with
  | nil =>
    intro p b f s ext acc hbp hstmts hwf hf hacc
    rw [eval_phi_loop]
    simp only [List.length_nil, Nat.add_zero]
    rw [dif_neg (by omega)]
    simp [specPhiVals]
  | cons ev rest ih =>
    obtain ⟨edges, vals⟩ := ev
    intro p b f s ext acc hbp hstmts hwf hf hacc
    have h0 : stmts.getD p dfltStmt = .phiNode edges vals := by
      have := hstmts 0 (by simp)
      simpa using this
    have hwfh := hwf (edges, vals) (List.mem_cons_self _ _)
    have hlen : vals.length = edges.length := hwfh.1
    have hlit := hwfh.2
    have hidx : b + (p - b) = p := by omega
    have hf1 : ¬(b < f + 1 ∧ f + 1 < p + 1) := by
      rcases hf with h | h
      · intro hc
        omega
      · intro hc
        simp only [List.length_cons] at h
        omega
    have hstmts2 : ∀ m (hm : m < rest.length),
        stmts.getD (p + 1 + m) dfltStmt = .phiNode (rest.get ⟨m, hm⟩).1 (rest.get ⟨m, hm⟩).2 := by
      intro m hm
      have e : p + 1 + m = p + (m + 1) := by omega
      rw [e]
      have := hstmts (m + 1) (by simp only [List.length_cons]; omega)
      simpa using this
    have hwf2 : ∀ ev ∈ rest, ev.2.length = ev.1.length ∧
        ∀ oe ∈ ev.2, ∀ x, oe = some x → ∃ w, x = .value w :=
      fun ev hev => hwf ev (List.mem_cons_of_mem _ hev)
    have tail : ∀ (b2 f2 : Nat) (s2 : InterpState) (acc2 : List (Option JLValue)),
        b2 ≤ p + 1 → (f2 + 1 ≤ b2 ∨ p + 1 + rest.length ≤ f2) → acc2.length = p + 1 - b2 →
        eval_phi_loop O stmts s2 ext (p + 1 - b2) (p + 1 - b2 + rest.length) f2 b2 acc2 =
          .ok ({ s2 with
            locals := writeSeq s2.locals (s2.nslots + b2) (acc2 ++ specPhiVals rest f2 b2 (p + 1)) },
            ext) :=
      fun b2 f2 s2 acc2 h1 h2 h3 => ih (p + 1) b2 f2 s2 ext acc2 h1 hstmts2 hwf2 h2 h3
    rw [eval_phi_loop, dif_pos (by simp only [List.length_cons]; omega), hidx, h0]
    dsimp only
    rw [findEdge_top edges f b (p + 1) hf1]
    rcases himp : specImplicitAux edges 0 none b (p + 1) with _ | q
    · -- no implicit fall-through edge: the explicit match (if any) is selected
      dsimp only
      simp only [Nat.sub_self, lt_self_iff_false, if_false, Nat.sub_zero, Nat.add_zero,
        List.length_cons]
      have e1 : p - b + 1 = p + 1 - b := by omega
      have e2 : p - b + (rest.length + 1) = p + 1 - b + rest.length := by omega
      have hf2 : f + 1 ≤ b ∨ p + 1 + rest.length ≤ f := by
        rcases hf with h | h
        · exact Or.inl h
        · simp only [List.length_cons] at h
          omega
      rcases hexp : specExplicitAux edges 0 f with _ | j
      · rw [e1, e2, tail b f s (acc ++ [none]) (by omega) hf2 (by simp [hacc]; omega)]
        simp only [specPhiVals, himp, hexp, phiVal, List.append_assoc, List.singleton_append]
      · have hj : j < vals.length := by
          have := specExplicitAux_lt edges 0 f j hexp
          omega
        dsimp only
        rw [dif_pos hj]
        rcases hval : vals.get ⟨j, hj⟩ with _ | x
        · have hgetD : vals.getD j none = none := by
            rw [List.getD_eq_getElem _ _ hj]
            exact hval
          rw [e1, e2, tail b f s (acc ++ [none]) (by omega) hf2 (by simp [hacc]; omega)]
          simp only [specPhiVals, himp, hexp, phiVal, hgetD, List.append_assoc,
            List.singleton_append]
        · obtain ⟨w, hw⟩ := hlit _ (hval ▸ List.get_mem vals j hj) x rfl
          subst hw
          have hgetD : vals.getD j none = some (.value w) := by
            rw [List.getD_eq_getElem _ _ hj]
            exact hval
          simp only [eval_value]
          rw [e1, e2, tail b f s (acc ++ [some w]) (by omega) hf2 (by simp [hacc]; omega)]
          simp only [specPhiVals, himp, hexp, phiVal, hgetD, List.append_assoc,
            List.singleton_append]
    · -- an implicit fall-through edge is claimed
      obtain ⟨hqb, hqp, hqe⟩ :=
        specImplicitAux_bounds edges 0 none b (p + 1) q (fun pp hpp => Option.noConfusion hpp)
          himp
      dsimp only
      have hpos : 0 < q.2 - b := by omega
      simp only [if_pos hpos, List.length_cons]
      have hj : q.1 < vals.length := by omega
      rw [dif_pos hj]
      have e1 : p - b - (q.2 - b) + 1 = p + 1 - q.2 := by omega
      have e2 : p - b + (rest.length + 1) - (q.2 - b) = p + 1 - q.2 + rest.length := by omega
      have e3 : b + (q.2 - b) = q.2 := by omega
      have e4 : s.nslots + b + (q.2 - b) = s.nslots + q.2 := by omega
      have hlenTake : (List.take (q.2 - b) acc).length = q.2 - b := by
        rw [List.length_take]
        omega
      rcases hval : vals.get ⟨q.1, hj⟩ with _ | x
      · have hgetD : vals.getD q.1 none = none := by
          rw [List.getD_eq_getElem _ _ hj]
          exact hval
        rw [e1, e2, e3,
          tail q.2 (q.2 - 1) _ (acc.drop (q.2 - b) ++ [none]) (by omega) (Or.inl (by omega))
            (by simp [hacc]; omega)]
        dsimp only
        simp only [specPhiVals, himp, phiVal, hgetD]
        conv_rhs => rw [← List.take_append_drop (q.2 - b) acc, List.append_assoc,
          writeSeq_append, hlenTake, e4]
        simp only [List.append_assoc, List.singleton_append]
      · obtain ⟨w, hw⟩ := hlit _ (hval ▸ List.get_mem vals q.1 hj) x rfl
        subst hw
        have hgetD : vals.getD q.1 none = some (.value w) := by
          rw [List.getD_eq_getElem _ _ hj]
          exact hval
        simp only [eval_value]
        rw [e1, e2, e3,
          tail q.2 (q.2 - 1) _ (acc.drop (q.2 - b) ++ [some w]) (by omega) (Or.inl (by omega))
            (by simp [hacc]; omega)]
        dsimp only
        simp only [specPhiVals, himp, phiVal, hgetD]
        conv_rhs => rw [← List.take_append_drop (q.2 - b) acc, List.append_assoc,
          writeSeq_append, hlenTake, e4]
        simp only [List.append_assoc, List.singleton_append]

/-- C1 (amended): for a run of consecutive φ-nodes starting at `to_`,
reached from a previous statement outside the run, `eval_phi` selects for
each φ-node the nearest implicit fall-through edge lying strictly between
the claimed block boundary (initially `to_`) and that φ-node's position
when such an edge exists — claiming it: the boundary moves to that edge
and the current predecessor re-bases to the statement before it — and
otherwise the first edge whose recorded predecessor equals the current
predecessor plus one (initially `from + 1`); the selected values land in
the SSA cells of the run and the resolver returns the index of the first
statement past it.  The implicit edge is preferred whether or not it is
nearer than the explicit match (see `C1_counterexample`). -/
theorem C1_phi_resolution :
    ∀ (O : Oracle) (stmts : List Stmt) (s : InterpState) (ext : Ext)
      (run : List (List Int × List (Option Expr))) (to_ : Nat),
      (∀ m (hm : m < run.length),
        stmts.getD (to_ + m) dfltStmt = .phiNode (run.get ⟨m, hm⟩).1 (run.get ⟨m, hm⟩).2) →
      (∀ ev ∈ run, ev.2.length = ev.1.length ∧
        ∀ oe ∈ ev.2, ∀ x, oe = some x → ∃ w, x = .value w) →
      to_ + run.length ≤ stmts.length →
      (to_ + run.length = stmts.length ∨
        isPhi (stmts.getD (to_ + run.length) dfltStmt) = false) →
      (s.ip + 1 ≤ to_ ∨ to_ + run.length ≤ s.ip) →
      eval_phi O stmts s ext stmts.length to_ =
        .ok (to_ + run.length,
          { s with locals := writeSeq s.locals (s.nslots + to_) (specPhiVals run s.ip to_ to_) },
          ext) := by
  intro O stmts s ext run to_ hrun hwf hle hend hfrom
  have hphi : ∀ m, m < run.length → isPhi (stmts.getD (to_ + m) dfltStmt) = true := by
    intro m hm
    rw [hrun m hm]
    rfl
  have hscan := phiScan_run stmts run.length to_ hphi hle hend
  have hloop := eval_phi_loop_spec O stmts run to_ to_ s.ip s ext [] (le_refl _) hrun hwf
    hfrom (by simp)
  simp only [Nat.sub_self, Nat.zero_add, List.nil_append] at hloop
  simp only [eval_phi, hscan, Nat.add_sub_cancel_left]
  rcases Nat.eq_zero_or_pos run.length with hz | hpos
  · rw [if_pos hz]
    have : run = [] := List.length_eq_zero.mp hz
    subst this
    simp [specPhiVals, writeSeq]
  · rw [if_neg (by omega), hloop]

/-- The counterexample program: position 0 is an ordinary statement,
positions 1-3 are a φ-run, position 4 is `goto 2` (a backward branch to
the φ-run at position 1, 1-indexed label 2).  The φ at position 3 lists an
explicit edge `5` (the predecessor statement index `from + 1` of the goto
at position 4) carrying value `1`, and an implicit fall-through edge `2`
(mid-run block boundary) carrying value `2`. -/
def stmtsC1 : List Stmt :=
  [.exprStmt (.value .nothing),
   .phiNode [5] [some (.value (.int64 10))],
   .phiNode [5] [some (.value (.int64 20))],
   .phiNode [5, 2] [some (.value (.int64 1)), some (.value (.int64 2))],
   .gotoNode 2]

/-- The φ-run of `stmtsC1` as an (edges, values) list. -/
def runC1 : List (List Int × List (Option Expr)) :=
  [([5], [some (.value (.int64 10))]),
   ([5], [some (.value (.int64 20))]),
   ([5, 2], [some (.value (.int64 1)), some (.value (.int64 2))])]

/-- The state for the counterexample: no slots, five SSA cells, previous
statement index 4 (the backward goto). -/
def sC1 : InterpState :=
  ⟨0, 5, [], [none, none, none, none, none], none, "Main", none, true, 4, false, 0⟩

/-- C1, counterexample to the claim as stated: for the φ-node at position
3 of `stmtsC1` the explicit match (edge `5`, the goto at position 4,
distance 1 from the φ) is strictly nearer than the implicit fall-through
edge (edge `2`, the φ at position 1, distance 2), so the claim's "unless
... nearer than the explicit match" selects the explicit value `1`; the
resolver nevertheless selects the implicit edge's value `2` (interpreter.c
780-792 prefers any in-window implicit edge unconditionally), writing
`int64 2` into SSA cell 3. -/
theorem C1_counterexample :
    eval_phi O0 stmtsC1 sC1 ext0 5 1 =
      .ok (4, { sC1 with
        locals := [none, some (.int64 10), some (.int64 20), some (.int64 2), none] }, ext0) ∧
    JLValue.int64 2 ≠ .int64 1 := by
  constructor
  · simp [eval_phi, phiScan, eval_phi_loop, findEdge, writeSeq, stmtsC1, sC1, isPhi, dfltStmt,
      sizeT, eval_value]
  · decide

/-- C1, witness: the amended characterization applied to the concrete
program `stmtsC1`. -/
theorem C1_phi_resolution_witness :
    eval_phi O0 stmtsC1 sC1 ext0 stmtsC1.length 1 =
      .ok (4, { sC1 with
        locals := writeSeq sC1.locals (sC1.nslots + 1) (specPhiVals runC1 sC1.ip 1 1) }, ext0) := by
  have h := C1_phi_resolution O0 stmtsC1 sC1 ext0 runC1 1
    (by
      intro m hm
      simp only [runC1, List.length_cons, List.length_nil] at hm
      interval_cases m <;> rfl)
    (by
      intro ev hev
      fin_cases hev <;> refine ⟨rfl, ?_⟩ <;>
        · intro oe hoe x hx
          fin_cases hoe <;> (cases hx; exact ⟨_, rfl⟩))
    (by decide) (Or.inr rfl) (Or.inr (by decide))
  simpa using h

end InterpModel
